/-
Verification of the genetic-optimization core of `trafficLight`
(`geneticOptimization.py`), as a shallow embedding in Lean 4.

Modelling conventions:
* Machine floats become `ℚ`.
* Randomness is passed in explicitly: every call to `random.random()` or to a
  numpy sampler consumes a value from an oracle supplied as a function
  argument.  `np.random.binomial(n=1, p)` and `np.random.uniform(low, high)`
  are modelled by the inverse-transform of a uniform draw `u ∈ [0,1)`.
* A Python list that may contain `None` (as the population can, since
  `getNewIndividual` can fall off the end of the function) is a
  `List (Option α)`; the entry `none` is Python's `None`.
* Code that can raise (`assert`, `AttributeError` on `None.mutate` or on
  sorting a list containing `None`, `IndexError`/`ValueError` on an empty
  sequence) returns `Option`: `none` is an uncaught exception.
* The simulation and scoring collaborators (`trafficSim`, `evaluation`) and
  the module `constants` are external to the repository; they enter as the
  abstract parameters `totalPerformance : List ℚ → ℚ` and
  `MIN_ACC MAX_ACC : ℚ`.
-/
import Mathlib

namespace TrafficLightOpt

/-- Model of `np.clip(v, a_min, a_max)`: numpy computes `min (max v a_min) a_max`. -/
def npClip (lo hi v : ℚ) : ℚ := min (max v lo) hi

/-- One trial of `np.random.binomial(n=1, p)`, by inverse transform of a
uniform draw `u ∈ [0,1)`: the trial succeeds (value `1`) iff `u < p`. -/
def bernoulli01 (p u : ℚ) : ℚ := if u < p then 1 else 0

/-- One draw of `np.random.uniform(low, high)`, by inverse transform of a
uniform draw `u ∈ [0,1)`. -/
def uniformDraw (low high u : ℚ) : ℚ := low + (high - low) * u

/-- A `Strategy` (lines 68-99): a discretized acceleration profile together
with the fitness computed at construction time. -/
structure Strategy where
  acceleration : List ℚ
  fitness : ℚ
  deriving Repr, DecidableEq

/-- Model of `Strategy.__init__` (lines 73-80): store the acceleration vector, run the
simulation and score it.  The whole pipeline
`TrafficSim(StrategyDriver(acc), ...).run(); evaluation.totalPerformance(...)`
is the external collaborator `totalPerformance` applied to the vector. -/
def Strategy.init (totalPerformance : List ℚ → ℚ) (acceleration : List ℚ) :
    Strategy :=
  { acceleration := acceleration, fitness := totalPerformance acceleration }

/-- Model of `Strategy.mutate` (lines 82-96).  `us i` is the uniform `[0,1)` draw behind
the `i`-th Bernoulli trial of `np.random.binomial(n=1, p=mutationParameter,
size=L)`; `ds i` the one behind the `i`-th entry of
`np.random.uniform(low=-maxChange, high=maxChange, size=L)`. -/
def Strategy.mutate (MIN_ACC MAX_ACC : ℚ) (totalPerformance : List ℚ → ℚ)
    (self : Strategy) (mutationParameter : ℚ) (us ds : ℕ → ℚ) : Strategy :=
  let L := self.acceleration.length
  let maxChange : ℚ := 1
  let doChange := (List.range L).map fun i => bernoulli01 mutationParameter (us i)
  let changeAmount := (List.range L).map fun i =>
    uniformDraw (-maxChange) maxChange (ds i)
  let effectiveChange := List.zipWith (fun d c => d * c) doChange changeAmount
  let newValues := List.zipWith (fun a e => a + e) self.acceleration effectiveChange
  let truncated := newValues.map (npClip MIN_ACC MAX_ACC)
  Strategy.init totalPerformance truncated

/-- Model of `Strategy.mutate` with the receiver's state threaded explicitly: the body
(lines 90-96) only reads `self.acceleration` and `self.trafficLight`; no
statement assigns to an attribute of `self`, so the receiver passes through
unchanged as the second component. -/
def Strategy.mutateSt (MIN_ACC MAX_ACC : ℚ) (totalPerformance : List ℚ → ℚ)
    (self : Strategy) (mutationParameter : ℚ) (us ds : ℕ → ℚ) :
    Strategy × Strategy :=
  let L := self.acceleration.length
  let maxChange : ℚ := 1
  let doChange := (List.range L).map fun i => bernoulli01 mutationParameter (us i)
  let changeAmount := (List.range L).map fun i =>
    uniformDraw (-maxChange) maxChange (ds i)
  let effectiveChange := List.zipWith (fun d c => d * c) doChange changeAmount
  let newValues := List.zipWith (fun a e => a + e) self.acceleration effectiveChange
  let truncated := newValues.map (npClip MIN_ACC MAX_ACC)
  (Strategy.init totalPerformance truncated, self)

/-- Mutable state of a `GeneticOptimization` object (lines 26-35), generic in
the individual type `α` as the class docstring promises.  A population entry
is an `Option α`: Python's population list can come to hold `None`. -/
structure GeneticOptimization (α : Type) where
  numIndividuals : ℕ
  numAfterCulling : ℕ
  proportionGeneratedThroughMutation : ℚ
  mutationParameter : ℚ
  numIterations : ℕ
  numGeneration : ℕ
  generation : List (Option α)

/-- Model of `GeneticOptimization.__init__` (lines 26-35): the constants, and the
initial population of `numIndividuals` factory-made individuals.  The
zero-argument factory draws fresh randomness at each call, so it is modelled
as indexed by the loop counter `n`. -/
def GeneticOptimization.init {α : Type} (individualFactory : ℕ → α) :
    GeneticOptimization α :=
  { numIndividuals := 100
    numAfterCulling := 10
    proportionGeneratedThroughMutation := 1
    mutationParameter := 9 / 10
    numIterations := 10000
    numGeneration := 0
    generation := (List.range 100).map fun n => some (individualFactory n) }

/-- The sort key `lambda x: x.fitness` of line 38.  On a `None` entry Python
raises instead; `iterate` below guards that case, so the default `0` is never
observable. -/
def fitKey {α : Type} (fitness : α → ℚ) : Option α → ℚ
  | some a => fitness a
  | none => 0

/-- Line 38, `self.generation.sort(key=lambda x: x.fitness, reverse=True)`:
a stable sort by descending fitness. -/
def sortByFitness {α : Type} (fitness : α → ℚ) (l : List (Option α)) :
    List (Option α) :=
  l.mergeSort fun a b => decide (fitKey fitness b ≤ fitKey fitness a)

/-- Lines 38-39: the population that survives the selection phase of
`iterate`, i.e. the first `numAfterCulling` entries after the sort. -/
def cullStep {α : Type} (fitness : α → ℚ) (st : GeneticOptimization α) :
    List (Option α) :=
  (sortByFitness fitness st.generation).take st.numAfterCulling

/-- Python's `max(l, key=...)` (line 57): the first element with the greatest
key; `none` models the `ValueError` on an empty sequence. -/
def pyMaxBy {α : Type} (fitness : α → ℚ) : List (Option α) → Option (Option α)
  | [] => none
  | x :: xs =>
    some (xs.foldl (fun m y => if fitKey fitness m < fitKey fitness y then y else m) x)

/-- What one call of `outputInfo` surfaces: `best` is the individual printed
by the 100-generation branch (line 57) when it fires, `trajectories` the
population whose per-individual logs are passed to
`visualization.showTrajectory` (line 59) when that branch fires. -/
structure Report (α : Type) where
  best : Option (Option α)
  trajectories : Option (List (Option α))

/-- Model of `outputInfo` (lines 55-59), called with the current population;
`none` is the `ValueError` of `max` on an empty population. -/
def outputInfo {α : Type} (fitness : α → ℚ) (numGeneration : ℕ)
    (generation : List (Option α)) : Option (Report α) :=
  if numGeneration % 100 = 0 then
    match pyMaxBy fitness generation with
    | none => none
    | some b =>
      some { best := some b
             trajectories :=
               if numGeneration % 1000 = 0 then some generation else none }
  else
    some { best := none
           trajectories :=
             if numGeneration % 1000 = 0 then some generation else none }

/-- The randomness one call of `getNewIndividual` may consume: `r` is the
`random.random()` draw of line 47, `choiceIdx` picks the element
`random.choice` returns (any natural, reduced mod the list length), and
`mutRand` is the randomness `mutate` consumes internally. -/
structure Slot (ω : Type) where
  r : ℚ
  choiceIdx : ℕ
  mutRand : ω

/-- Model of `getNewIndividual` (lines 46-49), for a generic individual with operation
`mutate`.  The result is `none` on an exception (`random.choice` on an empty
population, or `None.mutate`); `some none` is Python falling off the end of
the function and returning `None`. -/
def getNewIndividual {α ω : Type} (mutate : α → ℚ → ω → α)
    (generation : List (Option α))
    (proportionGeneratedThroughMutation mutationParameter : ℚ) (s : Slot ω) :
    Option (Option α) :=
  if s.r < proportionGeneratedThroughMutation then
    match generation[s.choiceIdx % generation.length]? with
    | none => none
    | some none => none
    | some (some parent) =>
      some (some (mutate parent mutationParameter s.mutRand))
  else
    some none

/-- Model of `iterate` (lines 37-44): sort descending by fitness (raises if the
population holds a `None`), truncate to `numAfterCulling`, report, replenish
with `numToReplenish` calls of `getNewIndividual`, append, and assert the
population size; `rand i` is the randomness of the `i`-th replenishment slot.
`none` is an uncaught exception (including a failed assert). -/
def GeneticOptimization.iterate {α ω : Type} (fitness : α → ℚ)
    (mutate : α → ℚ → ω → α) (st : GeneticOptimization α) (rand : ℕ → Slot ω) :
    Option (GeneticOptimization α × Report α) :=
  if st.generation.all Option.isSome then
    let culled := cullStep fitness st
    match outputInfo fitness st.numGeneration culled with
    | none => none
    | some rep =>
      let numToReplenish := st.numIndividuals - st.numAfterCulling
      let newIndividuals := (List.range numToReplenish).map fun i =>
        getNewIndividual mutate culled st.proportionGeneratedThroughMutation
          st.mutationParameter (rand i)
      if newIndividuals.all Option.isSome then
        let newGeneration := culled ++ newIndividuals.reduceOption
        if newGeneration.length = st.numIndividuals then
          some ({ st with generation := newGeneration }, rep)
        else none
      else none
  else none

/-- Model of `optimize` (lines 51-53): `for self.numGeneration in range(self.numIterations):
self.iterate()`.  `rand g i` is the randomness of slot `i` in generation `g`. -/
def GeneticOptimization.optimize {α ω : Type} (fitness : α → ℚ)
    (mutate : α → ℚ → ω → α) (st : GeneticOptimization α)
    (rand : ℕ → ℕ → Slot ω) : Option (GeneticOptimization α) :=
  (List.range st.numIterations).foldlM
    (fun s g =>
      (GeneticOptimization.iterate fitness mutate { s with numGeneration := g }
        (rand g)).map Prod.fst)
    st

/-- Reference recursion for `optimize`: starting at generation counter `g`,
run exactly `n` sequential calls of `iterate`, setting the counter before each
call, stopping early only when an exception propagates. -/
def runGenerations {α ω : Type} (fitness : α → ℚ) (mutate : α → ℚ → ω → α)
    (rand : ℕ → ℕ → Slot ω) : ℕ → ℕ → GeneticOptimization α →
    Option (GeneticOptimization α)
  | _, 0, s => some s
  | g, n + 1, s =>
    match GeneticOptimization.iterate fitness mutate { s with numGeneration := g }
        (rand g) with
    | none => none
    | some (s', _) => runGenerations fitness mutate rand (g + 1) n s'

/-- The replenishment phase of one `iterate` call: the raw results (possibly
Python `None`, possibly an exception) of the `numToReplenish` calls of
`getNewIndividual` against the culled population. -/
def replenish {α ω : Type} (fitness : α → ℚ) (mutate : α → ℚ → ω → α)
    (st : GeneticOptimization α) (rand : ℕ → Slot ω) :
    List (Option (Option α)) :=
  (List.range (st.numIndividuals - st.numAfterCulling)).map fun i =>
    getNewIndividual mutate (cullStep fitness st)
      st.proportionGeneratedThroughMutation st.mutationParameter (rand i)

/-- Concrete `mutate` operation on rational individuals, used by the witness
theorems below. -/
def testMut : ℚ → ℚ → Unit → ℚ := fun a p _ => a + p

/-- A small concrete optimizer state used by the witness theorems. -/
def testSt : GeneticOptimization ℚ :=
  { numIndividuals := 2
    numAfterCulling := 1
    proportionGeneratedThroughMutation := 1
    mutationParameter := 9 / 10
    numIterations := 3
    numGeneration := 0
    generation := [some 1, some 2] }

/-- Variant of `testSt` with a mutation proportion below one. -/
def testStHalf : GeneticOptimization ℚ :=
  { testSt with proportionGeneratedThroughMutation := mkRat 1 2 }

/-- Slot randomness whose `random.random()` draw is `0`. -/
def testSlot : ℕ → Slot Unit := fun _ => ⟨0, 0, ()⟩

/-- Slot randomness whose `random.random()` draw is `3/4`. -/
def testSlotHigh : ℕ → Slot Unit := fun _ => ⟨mkRat 3 4, 0, ()⟩

/-- Per-generation slot randomness for `optimize`, all draws `0`. -/
def testRand : ℕ → ℕ → Slot Unit := fun _ _ => ⟨0, 0, ()⟩

section Lemmas

variable {α ω : Type}

lemma sortByFitness_perm (fitness : α → ℚ) (l : List (Option α)) :
    (sortByFitness fitness l).Perm l :=
  List.mergeSort_perm l _

lemma sortByFitness_length (fitness : α → ℚ) (l : List (Option α)) :
    (sortByFitness fitness l).length = l.length :=
  (sortByFitness_perm fitness l).length_eq

lemma fitLE_trans (fitness : α → ℚ) (a b c : Option α)
    (hab : decide (fitKey fitness b ≤ fitKey fitness a) = true)
    (hbc : decide (fitKey fitness c ≤ fitKey fitness b) = true) :
    decide (fitKey fitness c ≤ fitKey fitness a) = true := by
  simp only [decide_eq_true_eq] at hab hbc ⊢
  exact le_trans hbc hab

lemma fitLE_total (fitness : α → ℚ) (a b : Option α) :
    (decide (fitKey fitness b ≤ fitKey fitness a) ||
      decide (fitKey fitness a ≤ fitKey fitness b)) = true := by
  simp only [Bool.or_eq_true, decide_eq_true_eq]
  exact le_total _ _

lemma sortByFitness_sorted (fitness : α → ℚ) (l : List (Option α)) :
    (sortByFitness fitness l).Pairwise
      (fun a b => fitKey fitness b ≤ fitKey fitness a) := by
  have h := @List.sorted_mergeSort (Option α)
    (fun a b => decide (fitKey fitness b ≤ fitKey fitness a))
    (fitLE_trans fitness) (fitLE_total fitness) l
  exact h.imp (by simp only [decide_eq_true_eq]; exact fun h => h)

lemma cullStep_subset (fitness : α → ℚ) (st : GeneticOptimization α) :
    ∀ x ∈ cullStep fitness st, x ∈ st.generation := by
  intro x hx
  have hx' : x ∈ sortByFitness fitness st.generation :=
    List.mem_of_mem_take hx
  exact (sortByFitness_perm fitness st.generation).mem_iff.mp hx'

lemma cullStep_length (fitness : α → ℚ) (st : GeneticOptimization α)
    (hk : st.numAfterCulling ≤ st.generation.length) :
    (cullStep fitness st).length = st.numAfterCulling := by
  simp [cullStep, sortByFitness_length, Nat.min_eq_left hk]

lemma cullStep_all_isSome (fitness : α → ℚ) (st : GeneticOptimization α)
    (h : st.generation.all Option.isSome = true) :
    (cullStep fitness st).all Option.isSome = true := by
  rw [List.all_eq_true] at h ⊢
  exact fun x hx => h x (cullStep_subset fitness st x hx)

lemma cullStep_ne_nil (fitness : α → ℚ) (st : GeneticOptimization α)
    (hkpos : 0 < st.numAfterCulling) (hpos : 0 < st.generation.length) :
    cullStep fitness st ≠ [] := by
  have : 0 < (cullStep fitness st).length := by
    simp only [cullStep, List.length_take, sortByFitness_length]
    exact lt_min hkpos hpos
  exact List.ne_nil_of_length_pos this

lemma foldl_pyMax_spec (fitness : α → ℚ) :
    ∀ (xs : List (Option α)) (x : Option α),
      (xs.foldl (fun m y => if fitKey fitness m < fitKey fitness y then y else m) x)
          ∈ x :: xs ∧
      fitKey fitness x ≤
        fitKey fitness
          (xs.foldl (fun m y => if fitKey fitness m < fitKey fitness y then y else m) x) ∧
      ∀ y ∈ xs,
        fitKey fitness y ≤
          fitKey fitness
            (xs.foldl (fun m y => if fitKey fitness m < fitKey fitness y then y else m) x)
  | [], x => by simp
  | y :: ys, x => by
    have ih := foldl_pyMax_spec fitness ys (if fitKey fitness x < fitKey fitness y then y else x)
    obtain ⟨hmem, hle, hall⟩ := ih
    have hx : fitKey fitness x ≤
        fitKey fitness (if fitKey fitness x < fitKey fitness y then y else x) := by
      split
      · exact le_of_lt (by assumption)
      · exact le_refl _
    have hy : fitKey fitness y ≤
        fitKey fitness (if fitKey fitness x < fitKey fitness y then y else x) := by
      split
      · exact le_refl _
      · exact le_of_not_lt (by assumption)
    refine ⟨?_, ?_, ?_⟩
    · simp only [List.foldl_cons]
      rcases List.mem_cons.mp hmem with h | h
      · rw [h]
        split
        · exact List.mem_cons_of_mem _ (List.mem_cons_self _ _)
        · exact List.mem_cons_self _ _
      · exact List.mem_cons_of_mem _ (List.mem_cons_of_mem _ h)
    · exact le_trans hx hle
    · intro z hz
      rcases List.mem_cons.mp hz with h | h
      · rw [h]; exact le_trans hy hle
      · exact hall z h

lemma pyMaxBy_spec (fitness : α → ℚ) (l : List (Option α)) (h : l ≠ []) :
    ∃ b, pyMaxBy fitness l = some b ∧ b ∈ l ∧
      ∀ x ∈ l, fitKey fitness x ≤ fitKey fitness b := by
  cases l with
  | nil => exact absurd rfl h
  | cons x xs =>
    obtain ⟨hmem, hle, hall⟩ := foldl_pyMax_spec fitness xs x
    refine ⟨_, rfl, hmem, ?_⟩
    intro z hz
    rcases List.mem_cons.mp hz with hz | hz
    · rw [hz]; exact hle
    · exact hall z hz

lemma outputInfo_spec (fitness : α → ℚ) (g : ℕ) (l : List (Option α))
    (h : l ≠ []) :
    ∃ rep, outputInfo fitness g l = some rep ∧
      (rep.best.isSome = true ↔ g % 100 = 0) ∧
      rep.trajectories = (if g % 1000 = 0 then some l else none) ∧
      (g % 100 = 0 → ∃ b, rep.best = some b ∧ b ∈ l ∧
        ∀ x ∈ l, fitKey fitness x ≤ fitKey fitness b) := by
  by_cases hg : g % 100 = 0
  · obtain ⟨b, hb, hbm, hbmax⟩ := pyMaxBy_spec fitness l h
    refine ⟨⟨some b, if g % 1000 = 0 then some l else none⟩, ?_, ?_, ?_, ?_⟩
    · rw [outputInfo, if_pos hg, hb]
    · simp [hg]
    · rfl
    · exact fun _ => ⟨b, rfl, hbm, hbmax⟩
  · refine ⟨⟨none, if g % 1000 = 0 then some l else none⟩, ?_, ?_, ?_, ?_⟩
    · rw [outputInfo, if_neg hg]
    · simp [hg]
    · rfl
    · exact fun hc => absurd hc hg

lemma getNewIndividual_isSome (mutate : α → ℚ → ω → α)
    (gen : List (Option α)) (prop mp : ℚ) (s : Slot ω)
    (hne : gen ≠ []) (hsome : gen.all Option.isSome = true) :
    (getNewIndividual mutate gen prop mp s).isSome = true := by
  rw [getNewIndividual]
  split
  · have hidx : s.choiceIdx % gen.length < gen.length :=
      Nat.mod_lt _ (List.length_pos.mpr hne)
    rw [List.getElem?_eq_getElem hidx]
    have hmem := List.getElem_mem hidx
    have := (List.all_eq_true.mp hsome) _ hmem
    obtain ⟨p, hp⟩ := Option.isSome_iff_exists.mp this
    rw [hp]
    rfl
  · rfl

lemma replenish_all_isSome (fitness : α → ℚ) (mutate : α → ℚ → ω → α)
    (st : GeneticOptimization α) (rand : ℕ → Slot ω)
    (hsome : st.generation.all Option.isSome = true)
    (hkpos : 0 < st.numAfterCulling)
    (hpos : 0 < st.generation.length) :
    (replenish fitness mutate st rand).all Option.isSome = true := by
  rw [List.all_eq_true]
  intro x hx
  simp only [replenish, List.mem_map] at hx
  obtain ⟨i, _, rfl⟩ := hx
  exact getNewIndividual_isSome mutate _ _ _ _
    (cullStep_ne_nil fitness st hkpos hpos)
    (cullStep_all_isSome fitness st hsome)

lemma replenish_reduceOption_length (fitness : α → ℚ) (mutate : α → ℚ → ω → α)
    (st : GeneticOptimization α) (rand : ℕ → Slot ω)
    (hall : (replenish fitness mutate st rand).all Option.isSome = true) :
    (replenish fitness mutate st rand).reduceOption.length =
      st.numIndividuals - st.numAfterCulling := by
  rw [List.reduceOption_length_eq_iff.mpr (by
    intro x hx
    exact (List.all_eq_true.mp hall) x hx)]
  simp [replenish]

/-- Master characterization of a successful `iterate` call. -/
lemma iterate_spec (fitness : α → ℚ) (mutate : α → ℚ → ω → α)
    (st : GeneticOptimization α) (rand : ℕ → Slot ω)
    (hsome : st.generation.all Option.isSome = true)
    (hlen : st.generation.length = st.numIndividuals)
    (hkpos : 0 < st.numAfterCulling)
    (hk : st.numAfterCulling ≤ st.numIndividuals) :
    ∃ rep,
      GeneticOptimization.iterate fitness mutate st rand =
        some ({ st with generation := cullStep fitness st ++
                  (replenish fitness mutate st rand).reduceOption }, rep) ∧
      (replenish fitness mutate st rand).reduceOption.length =
        st.numIndividuals - st.numAfterCulling ∧
      (rep.best.isSome = true ↔ st.numGeneration % 100 = 0) ∧
      rep.trajectories =
        (if st.numGeneration % 1000 = 0 then some (cullStep fitness st) else none) ∧
      (st.numGeneration % 100 = 0 → ∃ b, rep.best = some b ∧
        b ∈ cullStep fitness st ∧
        ∀ x ∈ cullStep fitness st, fitKey fitness x ≤ fitKey fitness b) := by
  have hpos : 0 < st.generation.length := by omega
  have hcne : cullStep fitness st ≠ [] := cullStep_ne_nil fitness st hkpos hpos
  obtain ⟨rep, hrep, hbest, htraj, hmax⟩ :=
    outputInfo_spec fitness st.numGeneration (cullStep fitness st) hcne
  have hall := replenish_all_isSome fitness mutate st rand hsome hkpos hpos
  have hredlen := replenish_reduceOption_length fitness mutate st rand hall
  have hclen : (cullStep fitness st).length = st.numAfterCulling :=
    cullStep_length fitness st (by omega)
  have hlen' :
      (cullStep fitness st ++ (replenish fitness mutate st rand).reduceOption).length
        = st.numIndividuals := by
    rw [List.length_append, hclen, hredlen]; omega
  refine ⟨rep, ?_, hredlen, hbest, htraj, hmax⟩
  have hfold : (List.range (st.numIndividuals - st.numAfterCulling)).map
      (fun i => getNewIndividual mutate (cullStep fitness st)
        st.proportionGeneratedThroughMutation st.mutationParameter (rand i))
      = replenish fitness mutate st rand := rfl
  rw [GeneticOptimization.iterate]
  rw [if_pos hsome]
  simp only [hrep]
  rw [hfold, if_pos hall, if_pos hlen']

lemma getNewIndividual_mutation (mutate : α → ℚ → ω → α)
    (gen : List (Option α)) (prop mp : ℚ) (s : Slot ω)
    (hr : s.r < prop) (hne : gen ≠ []) (hsome : gen.all Option.isSome = true) :
    ∃ parent, some parent ∈ gen ∧
      gen[s.choiceIdx % gen.length]? = some (some parent) ∧
      getNewIndividual mutate gen prop mp s =
        some (some (mutate parent mp s.mutRand)) := by
  have hidx : s.choiceIdx % gen.length < gen.length :=
    Nat.mod_lt _ (List.length_pos.mpr hne)
  have hmem := List.getElem_mem hidx
  have hs := (List.all_eq_true.mp hsome) _ hmem
  obtain ⟨p, hp⟩ := Option.isSome_iff_exists.mp hs
  have hget : gen[s.choiceIdx % gen.length]? = some (some p) := by
    rw [List.getElem?_eq_getElem hidx, hp]
  refine ⟨p, ?_, hget, ?_⟩
  · rw [← hp]; exact hmem
  · rw [getNewIndividual, if_pos hr, hget]

lemma npClip_mem_Icc (lo hi : ℚ) (h : lo ≤ hi) (v : ℚ) :
    lo ≤ npClip lo hi v ∧ npClip lo hi v ≤ hi := by
  unfold npClip
  exact ⟨le_min (le_max_right v lo) h, min_le_right _ hi⟩

lemma npClip_eq_self (lo hi v : ℚ) (h1 : lo ≤ v) (h2 : v ≤ hi) :
    npClip lo hi v = v := by
  unfold npClip
  rw [max_eq_left h1, min_eq_left h2]

lemma zipWith_add_replicate_zero :
    ∀ l : List ℚ, List.zipWith (fun a e => a + e) l (List.replicate l.length 0) = l
  | [] => rfl
  | x :: xs => by
    simp only [List.length_cons, List.replicate_succ, List.zipWith_cons_cons,
      add_zero]
    rw [zipWith_add_replicate_zero xs]

lemma map_npClip_eq_self (lo hi : ℚ) (l : List ℚ)
    (h : ∀ v ∈ l, lo ≤ v ∧ v ≤ hi) : l.map (npClip lo hi) = l := by
  induction l with
  | nil => rfl
  | cons x xs ih =>
    simp only [List.map_cons]
    rw [npClip_eq_self lo hi x (h x (List.mem_cons_self x xs)).1
        (h x (List.mem_cons_self x xs)).2,
      ih fun v hv => h v (List.mem_cons_of_mem x hv)]

lemma foldlM_range'_runGenerations (fitness : α → ℚ) (mutate : α → ℚ → ω → α)
    (rand : ℕ → ℕ → Slot ω) :
    ∀ (n g : ℕ) (s : GeneticOptimization α),
      (List.range' g n).foldlM
        (fun s G =>
          (GeneticOptimization.iterate fitness mutate { s with numGeneration := G }
            (rand G)).map Prod.fst) s
      = runGenerations fitness mutate rand g n s
  | 0, g, s => rfl
  | n + 1, g, s => by
    rw [List.range'_succ, List.foldlM_cons]
    cases hit : GeneticOptimization.iterate fitness mutate
        { s with numGeneration := g } (rand g) with
    | none => simp [runGenerations, hit, Option.map_none', Option.bind]
    | some p =>
      rw [runGenerations, hit]
      simp only [Option.map_some']
      exact foldlM_range'_runGenerations fitness mutate rand n (g + 1) p.1

lemma optimize_eq_runGenerations (fitness : α → ℚ) (mutate : α → ℚ → ω → α)
    (st : GeneticOptimization α) (rand : ℕ → ℕ → Slot ω) :
    GeneticOptimization.optimize fitness mutate st rand
      = runGenerations fitness mutate rand 0 st.numIterations st := by
  rw [GeneticOptimization.optimize, List.range_eq_range']
  exact foldlM_range'_runGenerations fitness mutate rand st.numIterations 0 st

end Lemmas

/-- Claim C4: for every individual produced by `Strategy.mutate`, and
regardless of the perturbation magnitudes drawn, every component of the
resulting acceleration vector lies within `[MIN_ACC, MAX_ACC]`: the perturbed
vector is clamped (line 95) before the new `Strategy` is constructed. -/
theorem mutate_output_clamped (MIN_ACC MAX_ACC : ℚ) (h : MIN_ACC ≤ MAX_ACC)
    (totalPerformance : List ℚ → ℚ) (s : Strategy) (mutationParameter : ℚ)
    (us ds : ℕ → ℚ) :
    ∀ v ∈ (Strategy.mutate MIN_ACC MAX_ACC totalPerformance s mutationParameter
        us ds).acceleration,
      MIN_ACC ≤ v ∧ v ≤ MAX_ACC := by
  intro v hv
  simp only [Strategy.mutate, Strategy.init, List.mem_map] at hv
  obtain ⟨w, -, rfl⟩ := hv
  exact npClip_mem_Icc MIN_ACC MAX_ACC h w

/-- Witness for C4 at a concrete input: range `[0, 5]`, a parent whose second
component `10` exceeds the range. -/
theorem mutate_output_clamped_witness :
    (0 : ℚ) ≤ 5 ∧
    ∀ v ∈ (Strategy.mutate 0 5 (fun _ => 0)
        { acceleration := [3, 10], fitness := 0 } (9 / 10)
        (fun _ => 0) (fun _ => 1 / 2)).acceleration,
      (0 : ℚ) ≤ v ∧ v ≤ 5 :=
  ⟨by norm_num,
   mutate_output_clamped 0 5 (by norm_num) (fun _ => 0)
     { acceleration := [3, 10], fitness := 0 } (9 / 10) (fun _ => 0)
     (fun _ => 1 / 2)⟩

/-- Counterexample to claim C5 as stated: with `mutationParameter = 0` the
mutated vector is NOT always identical to the parent's, because line 95 clamps
even unchanged values.  Concrete input: range `[MIN_ACC, MAX_ACC] = [0, 5]`,
parent vector `[7]`, Bernoulli draws `0 ∈ [0,1)` (so no component is
perturbed); the result is `[5] ≠ [7]`. -/
theorem mutate_rate_zero_counterexample :
    (Strategy.mutate 0 5 (fun _ => 0) { acceleration := [7], fitness := 0 } 0
      (fun _ => 0) (fun _ => 1 / 2)).acceleration ≠ [7] := by
  norm_num [Strategy.mutate, Strategy.init, bernoulli01, uniformDraw, npClip,
    min_def, max_def]

/-- Claim C5 (amended): `Strategy.mutate` is rate-bounded at the extremes.
With `mutationParameter = 0` the mutated vector is identical to the parent's
PROVIDED the parent's components already lie in `[MIN_ACC, MAX_ACC]` (they are
clamped regardless; every individual the program constructs satisfies this).
With `mutationParameter = 1` every component receives, with certainty, a
perturbation `uniformDraw (-1) 1 u` drawn from the uniform distribution on
`[-1, 1]`, and the sum is then clamped. -/
theorem mutate_rate_extremes (MIN_ACC MAX_ACC : ℚ)
    (totalPerformance : List ℚ → ℚ) (s : Strategy) (us ds : ℕ → ℚ)
    (hus : ∀ i, 0 ≤ us i ∧ us i < 1) :
    ((∀ v ∈ s.acceleration, MIN_ACC ≤ v ∧ v ≤ MAX_ACC) →
      (Strategy.mutate MIN_ACC MAX_ACC totalPerformance s 0 us ds).acceleration
        = s.acceleration) ∧
    ((Strategy.mutate MIN_ACC MAX_ACC totalPerformance s 1 us ds).acceleration
      = List.zipWith (fun a u => npClip MIN_ACC MAX_ACC (a + uniformDraw (-1) 1 u))
          s.acceleration ((List.range s.acceleration.length).map ds)) ∧
    (∀ u : ℚ, 0 ≤ u → u < 1 →
      -1 ≤ uniformDraw (-1) 1 u ∧ uniformDraw (-1) 1 u ≤ 1) := by
  refine ⟨?_, ?_, ?_⟩
  · intro hin
    simp only [Strategy.mutate, Strategy.init]
    apply List.ext_getElem
    · simp
    · intro i h1 h2
      simp only [List.getElem_map, List.getElem_zipWith, List.getElem_range]
      rw [bernoulli01, if_neg (not_lt.mpr (hus i).1), zero_mul, add_zero]
      exact npClip_eq_self _ _ _ (hin _ (List.getElem_mem h2)).1
        (hin _ (List.getElem_mem h2)).2
  · simp only [Strategy.mutate, Strategy.init]
    apply List.ext_getElem
    · simp
    · intro i h1 h2
      simp only [List.getElem_map, List.getElem_zipWith, List.getElem_range]
      rw [bernoulli01, if_pos (hus i).2, one_mul]
  · intro u h0 h1
    unfold uniformDraw
    constructor <;> nlinarith

/-- Witness for the amended C5 at a concrete input: range `[0, 5]`, in-range
parent `[1, 2]`, rate `0`, draws `1/2`: the vector is returned unchanged. -/
theorem mutate_rate_extremes_witness :
    (Strategy.mutate 0 5 (fun _ => 0) { acceleration := [1, 2], fitness := 0 } 0
      (fun _ => 1 / 2) (fun _ => 1 / 2)).acceleration = [1, 2] :=
  (mutate_rate_extremes 0 5 (fun _ => 0) { acceleration := [1, 2], fitness := 0 }
    (fun _ => 1 / 2) (fun _ => 1 / 2)
    (fun _ => ⟨by norm_num, by norm_num⟩)).1 (by decide)

/-- Claim C8: `Strategy.mutate` never modifies the parent.  The
state-threaded translation `mutateSt` returns the receiver unchanged and
produces the same new individual as `mutate`; the fitness of an individual is
computed once, at construction (line 80), from its own vector. -/
theorem mutate_pure_frame (MIN_ACC MAX_ACC : ℚ) (totalPerformance : List ℚ → ℚ)
    (s : Strategy) (mutationParameter : ℚ) (us ds : ℕ → ℚ) :
    (Strategy.mutateSt MIN_ACC MAX_ACC totalPerformance s mutationParameter us ds).2
      = s ∧
    (Strategy.mutateSt MIN_ACC MAX_ACC totalPerformance s mutationParameter us ds).1
      = Strategy.mutate MIN_ACC MAX_ACC totalPerformance s mutationParameter us ds ∧
    (∀ acc : List ℚ,
      (Strategy.init totalPerformance acc).fitness = totalPerformance acc) ∧
    (Strategy.mutate MIN_ACC MAX_ACC totalPerformance s mutationParameter us ds).fitness
      = totalPerformance
          (Strategy.mutate MIN_ACC MAX_ACC totalPerformance s mutationParameter
            us ds).acceleration :=
  ⟨rfl, rfl, fun _ => rfl, rfl⟩

/-- Claim C1: `iterate` culls the population to `numAfterCulling` survivors,
generates exactly `numToReplenish = numIndividuals - numAfterCulling`
replacement entries, appends them to the survivors, and the resulting length
equals `numIndividuals`, so the assertion of line 44 passes: the population
holds exactly `numIndividuals` entries before (hypothesis) and after
`iterate`. -/
theorem iterate_population_size {α ω : Type} (fitness : α → ℚ)
    (mutate : α → ℚ → ω → α) (st : GeneticOptimization α) (rand : ℕ → Slot ω)
    (hsome : st.generation.all Option.isSome = true)
    (hlen : st.generation.length = st.numIndividuals)
    (hkpos : 0 < st.numAfterCulling)
    (hk : st.numAfterCulling ≤ st.numIndividuals) :
    ∃ st' rep newEntries,
      GeneticOptimization.iterate fitness mutate st rand = some (st', rep) ∧
      (cullStep fitness st).length = st.numAfterCulling ∧
      newEntries.length = st.numIndividuals - st.numAfterCulling ∧
      st'.generation = cullStep fitness st ++ newEntries ∧
      st'.generation.length = st.numIndividuals := by
  obtain ⟨rep, hit, hredlen, -, -, -⟩ :=
    iterate_spec fitness mutate st rand hsome hlen hkpos hk
  have hclen : (cullStep fitness st).length = st.numAfterCulling :=
    cullStep_length fitness st (by omega)
  refine ⟨_, rep, (replenish fitness mutate st rand).reduceOption, hit, hclen,
    hredlen, rfl, ?_⟩
  show (cullStep fitness st ++
      (replenish fitness mutate st rand).reduceOption).length = st.numIndividuals
  rw [List.length_append, hclen, hredlen]
  omega

/-- Witness for C1 on a concrete two-individual population. -/
theorem iterate_population_size_witness :
    ∃ st' rep newEntries,
      GeneticOptimization.iterate (id : ℚ → ℚ) testMut testSt testSlot
        = some (st', rep) ∧
      (cullStep (id : ℚ → ℚ) testSt).length = testSt.numAfterCulling ∧
      newEntries.length = testSt.numIndividuals - testSt.numAfterCulling ∧
      st'.generation = cullStep (id : ℚ → ℚ) testSt ++ newEntries ∧
      st'.generation.length = testSt.numIndividuals :=
  iterate_population_size id testMut testSt testSlot (by decide) (by decide)
    (by decide) (by decide)

/-- Claim C2: the elite retained by the selection phase of `iterate` is
exactly the top `numAfterCulling` individuals by fitness: each survivor comes
from the pre-selection population, the survivor count is `numAfterCulling`
(capped by the population size), every retained entry's fitness is at least
every discarded entry's fitness, survivors plus discarded form a permutation
of the input, and ties keep the construction order (stability of the sort). -/
theorem selection_top_k {α : Type} (fitness : α → ℚ)
    (st : GeneticOptimization α) :
    (∀ x ∈ cullStep fitness st, x ∈ st.generation) ∧
    (cullStep fitness st).length
      = min st.numAfterCulling st.generation.length ∧
    (∀ x ∈ cullStep fitness st,
      ∀ y ∈ (sortByFitness fitness st.generation).drop st.numAfterCulling,
        fitKey fitness y ≤ fitKey fitness x) ∧
    List.Perm
      (cullStep fitness st ++
        (sortByFitness fitness st.generation).drop st.numAfterCulling)
      st.generation ∧
    (∀ a b : Option α, fitKey fitness a = fitKey fitness b →
      List.Sublist [a, b] st.generation →
      List.Sublist [a, b] (sortByFitness fitness st.generation)) := by
  refine ⟨cullStep_subset fitness st, ?_, ?_, ?_, ?_⟩
  · simp [cullStep, sortByFitness_length]
  · have hp := sortByFitness_sorted fitness st.generation
    rw [← List.take_append_drop st.numAfterCulling
      (sortByFitness fitness st.generation)] at hp
    exact fun x hx y hy => (List.pairwise_append.mp hp).2.2 x hx y hy
  · have h : cullStep fitness st ++
        (sortByFitness fitness st.generation).drop st.numAfterCulling
        = sortByFitness fitness st.generation :=
      List.take_append_drop _ _
    rw [h]
    exact sortByFitness_perm fitness st.generation
  · intro a b hfit hsub
    exact List.pair_sublist_mergeSort (fitLE_trans fitness) (fitLE_total fitness)
      (by simp only [decide_eq_true_eq]; exact le_of_eq hfit.symm) hsub

/-- Witness for C2: in `testSt`, a pair with equal keys (under a constant
fitness) keeps its construction order through the sort. -/
theorem selection_top_k_witness :
    List.Sublist [some (1 : ℚ), some 2]
      (sortByFitness (fun _ => (0 : ℚ)) testSt.generation) :=
  (selection_top_k (fun _ => (0 : ℚ)) testSt).2.2.2.2 (some 1) (some 2)
    (by decide) (by decide)

/-- Claim C3: `optimize` performs exactly `numIterations` sequential `iterate`
calls (the reference recursion `runGenerations`, with the generation counter
set to `0, 1, ...` before each call, and no stop besides a propagated
exception); the counter influences neither the selection phase nor the
replenishment phase, and two `iterate` calls differing only in the counter
produce the same next population. -/
theorem optimize_fixed_iterations {α ω : Type} (fitness : α → ℚ)
    (mutate : α → ℚ → ω → α) (st : GeneticOptimization α)
    (rand : ℕ → ℕ → Slot ω) :
    GeneticOptimization.optimize fitness mutate st rand
      = runGenerations fitness mutate rand 0 st.numIterations st ∧
    (∀ g : ℕ, cullStep fitness { st with numGeneration := g }
      = cullStep fitness st) ∧
    (∀ (g : ℕ) (rand1 : ℕ → Slot ω),
      replenish fitness mutate { st with numGeneration := g } rand1
        = replenish fitness mutate st rand1) ∧
    (st.generation.all Option.isSome = true →
      st.generation.length = st.numIndividuals →
      0 < st.numAfterCulling →
      st.numAfterCulling ≤ st.numIndividuals →
      ∀ (g g' : ℕ) (rand1 : ℕ → Slot ω),
        ∃ st1 rep1 st2 rep2,
          GeneticOptimization.iterate fitness mutate
            { st with numGeneration := g } rand1 = some (st1, rep1) ∧
          GeneticOptimization.iterate fitness mutate
            { st with numGeneration := g' } rand1 = some (st2, rep2) ∧
          st1.generation = st2.generation) := by
  refine ⟨optimize_eq_runGenerations fitness mutate st rand,
    fun g => rfl, fun g rand1 => rfl, ?_⟩
  intro hsome hlen hkpos hk g g' rand1
  obtain ⟨rep1, hit1, -, -, -, -⟩ := iterate_spec fitness mutate
    { st with numGeneration := g } rand1 hsome hlen hkpos hk
  obtain ⟨rep2, hit2, -, -, -, -⟩ := iterate_spec fitness mutate
    { st with numGeneration := g' } rand1 hsome hlen hkpos hk
  exact ⟨_, rep1, _, rep2, hit1, hit2, rfl⟩

/-- Witness for C3 on the concrete state `testSt`, comparing the counter
values `0` and `1`. -/
theorem optimize_fixed_iterations_witness :
    GeneticOptimization.optimize (id : ℚ → ℚ) testMut testSt testRand
      = runGenerations (id : ℚ → ℚ) testMut testRand 0 testSt.numIterations testSt ∧
    ∃ st1 rep1 st2 rep2,
      GeneticOptimization.iterate (id : ℚ → ℚ) testMut
        { testSt with numGeneration := 0 } testSlot = some (st1, rep1) ∧
      GeneticOptimization.iterate (id : ℚ → ℚ) testMut
        { testSt with numGeneration := 1 } testSlot = some (st2, rep2) ∧
      st1.generation = st2.generation :=
  ⟨(optimize_fixed_iterations id testMut testSt testRand).1,
   (optimize_fixed_iterations id testMut testSt testRand).2.2.2 (by decide)
     (by decide) (by decide) (by decide) 0 1 testSlot⟩

/-- Claim C6: when the replenishment draw satisfies
`r < proportionGeneratedThroughMutation`, `getNewIndividual` picks a parent
from the post-selection survivor set (the culled population) — the entry at
the randomly chosen index — and returns `parent.mutate(mutationParameter)`. -/
theorem replenishment_mutation_source {α ω : Type} (fitness : α → ℚ)
    (mutate : α → ℚ → ω → α) (st : GeneticOptimization α) (s : Slot ω)
    (hsome : st.generation.all Option.isSome = true)
    (hkpos : 0 < st.numAfterCulling)
    (hpos : 0 < st.generation.length)
    (hr : s.r < st.proportionGeneratedThroughMutation) :
    ∃ parent, some parent ∈ cullStep fitness st ∧
      (cullStep fitness st)[s.choiceIdx % (cullStep fitness st).length]?
        = some (some parent) ∧
      getNewIndividual mutate (cullStep fitness st)
        st.proportionGeneratedThroughMutation st.mutationParameter s
        = some (some (mutate parent st.mutationParameter s.mutRand)) :=
  getNewIndividual_mutation mutate _ _ _ s hr
    (cullStep_ne_nil fitness st hkpos hpos)
    (cullStep_all_isSome fitness st hsome)

/-- Witness for C6 on the concrete state `testSt` with draw `r = 0`. -/
theorem replenishment_mutation_source_witness :
    ∃ parent, some parent ∈ cullStep (id : ℚ → ℚ) testSt ∧
      (cullStep (id : ℚ → ℚ) testSt)[(testSlot 0).choiceIdx %
        (cullStep (id : ℚ → ℚ) testSt).length]? = some (some parent) ∧
      getNewIndividual testMut (cullStep (id : ℚ → ℚ) testSt)
        testSt.proportionGeneratedThroughMutation testSt.mutationParameter
        (testSlot 0)
        = some (some (testMut parent testSt.mutationParameter
            (testSlot 0).mutRand)) :=
  replenishment_mutation_source id testMut testSt (testSlot 0) (by decide)
    (by decide) (by decide) (by decide)

/-- Claim C7: under the default configuration the mutation proportion is `1`,
and for every draw `r ∈ [0,1)` the branch test `r < 1` holds, so every
replacement is produced via mutation, the unimplemented crossover branch is
unreachable, and `getNewIndividual` never returns Python `None`. -/
theorem crossover_branch_unreachable {α ω : Type} :
    (∀ individualFactory : ℕ → α,
      (GeneticOptimization.init individualFactory).proportionGeneratedThroughMutation
        = 1) ∧
    (∀ (mutate : α → ℚ → ω → α) (generation : List (Option α)) (mp : ℚ)
        (s : Slot ω),
      0 ≤ s.r → s.r < 1 → generation ≠ [] →
      generation.all Option.isSome = true →
      ∃ parent, some parent ∈ generation ∧
        getNewIndividual mutate generation 1 mp s
          = some (some (mutate parent mp s.mutRand))) := by
  refine ⟨fun _ => rfl, ?_⟩
  intro mutate generation mp s h0 h1 hne hsome
  obtain ⟨p, hmem, -, hget⟩ :=
    getNewIndividual_mutation mutate generation 1 mp s h1 hne hsome
  exact ⟨p, hmem, hget⟩

/-- Witness for C7 with the factory `n ↦ n` and a concrete draw `r = 1/2`. -/
theorem crossover_branch_unreachable_witness :
    (GeneticOptimization.init
      (fun n : ℕ => (n : ℚ))).proportionGeneratedThroughMutation = 1 ∧
    ∃ parent, some parent ∈ [some (3 : ℚ)] ∧
      getNewIndividual testMut [some (3 : ℚ)] 1 (9 / 10)
        (⟨mkRat 1 2, 0, ()⟩ : Slot Unit)
        = some (some (testMut parent (9 / 10) ())) :=
  ⟨(@crossover_branch_unreachable ℚ Unit).1 (fun n => (n : ℚ)),
   (@crossover_branch_unreachable ℚ Unit).2 testMut [some (3 : ℚ)] (9 / 10)
     ⟨mkRat 1 2, 0, ()⟩ (by decide) (by decide) (by decide) (by decide)⟩

/-- Claim C9: `iterate` invokes the reporting hook after the selection step,
on the culled population: the best individual by fitness is surfaced exactly
when the generation counter is a multiple of `100`, the full population (for
its per-individual trajectory logs) exactly when the counter is a multiple of
`1000`, and both fire at generation `0`. -/
theorem reporting_schedule {α ω : Type} (fitness : α → ℚ)
    (mutate : α → ℚ → ω → α) (st : GeneticOptimization α) (rand : ℕ → Slot ω)
    (hsome : st.generation.all Option.isSome = true)
    (hlen : st.generation.length = st.numIndividuals)
    (hkpos : 0 < st.numAfterCulling)
    (hk : st.numAfterCulling ≤ st.numIndividuals) :
    ∃ st' rep,
      GeneticOptimization.iterate fitness mutate st rand = some (st', rep) ∧
      (rep.best.isSome = true ↔ st.numGeneration % 100 = 0) ∧
      (rep.trajectories.isSome = true ↔ st.numGeneration % 1000 = 0) ∧
      rep.trajectories
        = (if st.numGeneration % 1000 = 0 then some (cullStep fitness st)
           else none) ∧
      (st.numGeneration % 100 = 0 → ∃ b, rep.best = some b ∧
        b ∈ cullStep fitness st ∧
        ∀ x ∈ cullStep fitness st, fitKey fitness x ≤ fitKey fitness b) ∧
      (st.numGeneration = 0 →
        rep.best.isSome = true ∧ rep.trajectories.isSome = true) := by
  obtain ⟨rep, hit, -, hbest, htraj, hmax⟩ :=
    iterate_spec fitness mutate st rand hsome hlen hkpos hk
  have htrajSome : rep.trajectories.isSome = true ↔ st.numGeneration % 1000 = 0 := by
    rw [htraj]
    by_cases hg : st.numGeneration % 1000 = 0 <;> simp [hg]
  refine ⟨_, rep, hit, hbest, htrajSome, htraj, hmax, ?_⟩
  intro h0
  constructor
  · exact hbest.mpr (by rw [h0])
  · exact htrajSome.mpr (by rw [h0])

/-- Witness for C9 on the concrete state `testSt`, whose generation counter is
`0`, so both reporting branches fire. -/
theorem reporting_schedule_witness :
    ∃ st' rep,
      GeneticOptimization.iterate (id : ℚ → ℚ) testMut testSt testSlot
        = some (st', rep) ∧
      (rep.best.isSome = true ↔ testSt.numGeneration % 100 = 0) ∧
      (rep.trajectories.isSome = true ↔ testSt.numGeneration % 1000 = 0) ∧
      rep.trajectories
        = (if testSt.numGeneration % 1000 = 0
           then some (cullStep (id : ℚ → ℚ) testSt) else none) ∧
      (testSt.numGeneration % 100 = 0 → ∃ b, rep.best = some b ∧
        b ∈ cullStep (id : ℚ → ℚ) testSt ∧
        ∀ x ∈ cullStep (id : ℚ → ℚ) testSt,
          fitKey (id : ℚ → ℚ) x ≤ fitKey (id : ℚ → ℚ) b) ∧
      (testSt.numGeneration = 0 →
        rep.best.isSome = true ∧ rep.trajectories.isSome = true) :=
  reporting_schedule id testMut testSt testSlot (by decide) (by decide)
    (by decide) (by decide)

/-- Claim C10: with a mutation proportion below `1`, a replenishment slot
whose draw satisfies `r ≥ proportionGeneratedThroughMutation` makes
`getNewIndividual` return Python `None`; that `None` is appended to the
population and counted by the size assertion, so `iterate` completes without
error and the resulting population contains a non-individual entry. -/
theorem none_replenishment_entry {α ω : Type} (fitness : α → ℚ)
    (mutate : α → ℚ → ω → α) (st : GeneticOptimization α) (rand : ℕ → Slot ω)
    (hsome : st.generation.all Option.isSome = true)
    (hlen : st.generation.length = st.numIndividuals)
    (hkpos : 0 < st.numAfterCulling)
    (hk : st.numAfterCulling ≤ st.numIndividuals)
    (_hp : st.proportionGeneratedThroughMutation < 1)
    (i : ℕ) (hi : i < st.numIndividuals - st.numAfterCulling)
    (hri : st.proportionGeneratedThroughMutation ≤ (rand i).r) :
    getNewIndividual mutate (cullStep fitness st)
      st.proportionGeneratedThroughMutation st.mutationParameter (rand i)
      = some none ∧
    ∃ st' rep,
      GeneticOptimization.iterate fitness mutate st rand = some (st', rep) ∧
      st'.generation.length = st.numIndividuals ∧
      none ∈ st'.generation := by
  have hnone : getNewIndividual mutate (cullStep fitness st)
      st.proportionGeneratedThroughMutation st.mutationParameter (rand i)
      = some none := by
    rw [getNewIndividual, if_neg (not_lt.mpr hri)]
  obtain ⟨rep, hit, hredlen, -, -, -⟩ :=
    iterate_spec fitness mutate st rand hsome hlen hkpos hk
  refine ⟨hnone, _, rep, hit, ?_, ?_⟩
  · show (cullStep fitness st ++
        (replenish fitness mutate st rand).reduceOption).length
      = st.numIndividuals
    rw [List.length_append, cullStep_length fitness st (by omega), hredlen]
    omega
  · show none ∈ cullStep fitness st ++
      (replenish fitness mutate st rand).reduceOption
    refine List.mem_append.mpr (Or.inr ?_)
    rw [List.reduceOption_mem_iff]
    simp only [replenish, List.mem_map]
    exact ⟨i, List.mem_range.mpr hi, hnone⟩

/-- Witness for C10 on the concrete state `testStHalf` (mutation proportion
`1/2`) with draw `r = 3/4` in the only replenishment slot. -/
theorem none_replenishment_entry_witness :
    getNewIndividual testMut (cullStep (id : ℚ → ℚ) testStHalf)
      testStHalf.proportionGeneratedThroughMutation
      testStHalf.mutationParameter (testSlotHigh 0) = some none ∧
    ∃ st' rep,
      GeneticOptimization.iterate (id : ℚ → ℚ) testMut testStHalf testSlotHigh
        = some (st', rep) ∧
      st'.generation.length = testStHalf.numIndividuals ∧
      none ∈ st'.generation :=
  none_replenishment_entry id testMut testStHalf testSlotHigh (by decide)
    (by decide) (by decide) (by decide) (by decide) 0 (by decide) (by decide)

end TrafficLightOpt
